import Mathlib

/-!
Verification development for the Verus function-finder and diagnostic
analyzer.  The Python sources `find_verus_functions.py` and
`find_verus_functions_syn.py` are shallowly embedded below: lines of text
are `List Char`, the regular-expression searches are hand-rolled matchers
that follow the leftmost-match / greedy semantics of the patterns used in
the code, and the streaming diagnostic parser is a fold over the input
lines.  All definitions are executable so that concrete runs of the code
can be evaluated inside proofs.
-/

namespace VerusFind

/-- Text is modelled as a list of characters. -/
abbrev Str := List Char

/-- Coerce a Lean string literal to the character-list representation. -/
def lit (s : String) : Str := s.data

/-- Newline character. -/
def nlC : Char := Char.ofNat 10

/-- Apostrophe character. -/
def aposC : Char := Char.ofNat 39

/-- Backtick character. -/
def btC : Char := Char.ofNat 96

/-- Escape character (ESC), opening an ANSI colour sequence. -/
def escC : Char := Char.ofNat 27

/-- Double-quote character. -/
def quoteC : Char := Char.ofNat 34

/-- Backslash character. -/
def bslashC : Char := Char.ofNat 92

/-- Opening brace character. -/
def lbraceC : Char := Char.ofNat 123

/-- Closing brace character. -/
def rbraceC : Char := Char.ofNat 125

/-- The whitespace class used by Python `str.strip` and by `\s` in the
patterns (ASCII range): space, tab, newline, carriage return, vertical
tab and form feed. -/
def pyWs (c : Char) : Bool :=
  c = ' ' || c = Char.ofNat 9 || c = nlC || c = Char.ofNat 13 ||
  c = Char.ofNat 11 || c = Char.ofNat 12

/-- Strip trailing whitespace (Python `str.rstrip`). -/
def rstrip (l : Str) : Str := (l.reverse.dropWhile pyWs).reverse

/-- Strip surrounding whitespace (Python `str.strip`). -/
def strip (l : Str) : Str := rstrip (l.dropWhile pyWs)

/-- Lower-case a line (Python `str.lower`, ASCII fragment). -/
def lowerStr (l : Str) : Str := l.map Char.toLower

/-- Split a text on a character, as Python `str.split(c)`:
the result always has one more element than the number of separators. -/
def splitOnC (sep : Char) : Str → List Str
  | [] => [[]]
  | c :: rest =>
    match splitOnC sep rest with
    | [] => [[c]]
    | h :: t => if c = sep then [] :: h :: t else (c :: h) :: t

/-- Split a text into its lines (Python `content.split('\n')`). -/
def splitLines (content : Str) : List Str := splitOnC nlC content

/-- `leadsWith pat l` : Python `l.startswith(pat)`. -/
def leadsWith : Str → Str → Bool
  | [], _ => true
  | _ :: _, [] => false
  | p :: ps, c :: cs => p = c && leadsWith ps cs

/-- `tailsWith pat l` : Python `l.endswith(pat)`. -/
def tailsWith (pat l : Str) : Bool := leadsWith pat.reverse l.reverse

/-- `containsSub pat l` : Python `pat in l` (substring containment). -/
def containsSub (pat : Str) : Str → Bool
  | [] => decide (pat = [])
  | c :: t => leadsWith pat (c :: t) || containsSub pat t

/-- Index of the first occurrence of `pat` in `l`, if any. -/
def findSub (pat : Str) : Str → Option Nat
  | [] => if pat = [] then some 0 else none
  | c :: t =>
    if leadsWith pat (c :: t) then some 0
    else (findSub pat t).map (· + 1)

/-- Drop a literal pattern from the front of the text, or fail. -/
def dropPat? (pat l : Str) : Option Str :=
  if leadsWith pat l then some (l.drop pat.length) else none

/-- Consume one-or-more whitespace characters (`\s+`), greedily. -/
def ws1 : Str → Option Str
  | [] => none
  | c :: t => if pyWs c then some (t.dropWhile pyWs) else none

/-- Consume one-or-more decimal digits (`\d+`), greedily, returning the
numeric value. -/
def digits1 (l : Str) : Option (Nat × Str) :=
  let ds := l.takeWhile Char.isDigit
  if ds = [] then none
  else some (ds.foldl (fun a c => a * 10 + (c.toNat - 48)) 0, l.drop ds.length)

/-- Python `int(...)` on a string: surrounding whitespace allowed, an
optional sign, then digits; anything else fails. -/
def pyInt (l : Str) : Option Int :=
  let s := strip l
  match s with
  | [] => none
  | c :: t =>
    let (sign, body) : Int × Str :=
      if c = '-' then (-1, t) else if c = '+' then (1, t) else (1, c :: t)
    match digits1 body with
    | some (n, rest) => if rest = [] then some (sign * (n : Int)) else none
    | none => none

/-- Count newline characters in a text. -/
def countNl (l : Str) : Nat := l.count nlC

/-- Character at an index (`content[i]`), if in range. -/
def charAt (content : Str) (i : Nat) : Option Char := (content.drop i).head?

/-- First position at or after `l`'s head where the positional matcher
succeeds (regex `search` semantics for a boolean matcher). -/
def searchB (m : Str → Bool) : Str → Bool
  | [] => m []
  | c :: t => m (c :: t) || searchB m t

/-- First successful result of a positional matcher over all start
positions (regex `search` semantics, leftmost match wins). -/
def searchO {α : Type} (m : Str → Option α) : Str → Option α
  | [] => m []
  | c :: t => (m (c :: t)).orElse (fun _ => searchO m t)

end VerusFind

namespace VerusFind

/-! ### RustFunctionFinder: comment removal -/

/-- Truncate a single line at the first `//` (the effect of
`re.sub(r'//.*$', '', content, flags=re.MULTILINE)` on that line). -/
def cutLineComment : Str → Str
  | [] => []
  | c :: t => if leadsWith (lit "//") (c :: t) then [] else c :: cutLineComment t

/-- `re.sub(r'//.*$', '', content, flags=re.MULTILINE)`: every line is
truncated at its first `//`. -/
def removeLineComments (content : Str) : Str :=
  List.intercalate [nlC] ((splitLines content).map cutLineComment)

/-- `re.sub(r'/\*.*?\*/', '', content, flags=re.DOTALL)`: repeatedly drop
the span from the leftmost `/*` to the nearest following `*/`; a `/*`
with no later `*/` is left in place. -/
def removeBlockComments : Nat → Str → Str
  | 0, s => s
  | fuel + 1, s =>
    match findSub (lit "/*") s with
    | none => s
    | some i =>
      match findSub (lit "*/") (s.drop (i + 2)) with
      | none => s
      | some k =>
        s.take i ++ removeBlockComments fuel (s.drop (i + 2 + k + 2))

/-- `RustFunctionFinder.remove_comments`: line comments are removed
first, then block comments. -/
def remove_comments (content : Str) : Str :=
  removeBlockComments content.length (removeLineComments content)

/-! ### RustFunctionFinder: function patterns

`all_fn_pattern = (?:pub\s+)?((?:spec|proof|exec|open|uninterp|const)\s+)*fn\s+([a-zA-Z_][a-zA-Z0-9_]*)\s*\(`

The captured group 1 of a starred group keeps only the **last**
repetition (Python `re` semantics), including the whitespace matched by
its `\s+`. -/

/-- The keyword alternation of the general pattern, in source order. -/
def allKws : List Str :=
  [lit "spec", lit "proof", lit "exec", lit "open", lit "uninterp", lit "const"]

/-- The Verus-specific keywords tested by
`any(kw in keywords for kw in ['spec', 'proof', 'exec', 'open', 'uninterp'])`. -/
def verusSpecificKws : List Str :=
  [lit "spec", lit "proof", lit "exec", lit "open", lit "uninterp"]

/-- First character of an identifier: `[a-zA-Z_]`. -/
def identStartC (c : Char) : Bool := c.isAlpha || c = '_'

/-- Later characters of an identifier: `[a-zA-Z0-9_]`. -/
def identC (c : Char) : Bool := c.isAlphanum || c = '_'

/-- Word character for the `\b` boundary in `\bverus!\s*{`. -/
def wordC (c : Char) : Bool := c.isAlphanum || c = '_'

/-- Consume `pub\s+` if present (the optional visibility of both
patterns); the regex never backtracks over it because no later
alternative can match a text beginning with `pub` + whitespace. -/
def pubStep (s : Str) : Str :=
  match dropPat? (lit "pub") s with
  | some r => match ws1 r with
    | some r2 => r2
    | none => s
  | none => s

/-- Try to consume one `kw\s+` repetition of the starred modifier group;
returns the captured text (keyword plus the greedy whitespace run) and
the rest. -/
def kwStep (s : Str) : Option (Str × Str) :=
  allKws.findSome? fun k =>
    match dropPat? k s with
    | some r =>
      let ws := r.takeWhile pyWs
      if ws = [] then none else some (k ++ ws, r.drop ws.length)
    | none => none

/-- Greedy star over `kw\s+` repetitions; returns the last captured
repetition (group 1 of the Python match) and the rest of the text. -/
def kwChain : Nat → Str → (Option Str × Str)
  | 0, s => (none, s)
  | fuel + 1, s =>
    match kwStep s with
    | none => (none, s)
    | some (cap, r) =>
      let (c', r') := kwChain fuel r
      (some (c'.getD cap), r')

/-- Consume `fn\s+([a-zA-Z_][a-zA-Z0-9_]*)\s*\(`; returns the captured
name and the rest after the opening parenthesis. -/
def fnTail (s : Str) : Option (Str × Str) :=
  match dropPat? (lit "fn") s with
  | none => none
  | some r =>
    match ws1 r with
    | none => none
    | some r2 =>
      match r2 with
      | [] => none
      | c :: t =>
        if identStartC c then
          let nm := c :: t.takeWhile identC
          let r3 := (t.dropWhile identC).dropWhile pyWs
          match r3 with
          | p :: tail => if p = '(' then some (nm, tail) else none
          | [] => none
        else none

/-- Positional match of `all_fn_pattern`: returns
(function name, captured group 1, length of the whole match). -/
def matchGeneralFnAt (s : Str) : Option (Str × Option Str × Nat) :=
  let s1 := pubStep s
  let (cap, s2) := kwChain s1.length s1
  match fnTail s2 with
  | some (nm, rest) => some (nm, cap, s.length - rest.length)
  | none => none

/-- Non-overlapping scan of `all_fn_pattern` over the text
(`finditer` semantics): at each position try to match; on success record
(name, group 1, match start) and resume after the match. -/
def scanGen : Nat → Str → Nat → List (Str × Option Str × Nat)
  | 0, _, _ => []
  | _ + 1, [], _ => []
  | fuel + 1, c :: t, pos =>
    match matchGeneralFnAt (c :: t) with
    | some (nm, cap, len) =>
      (nm, cap, pos) :: scanGen fuel ((c :: t).drop len) (pos + len)
    | none => scanGen fuel t (pos + 1)

/-- `const_fn_pattern = (?:pub\s+)?(?!(?:spec|open|uninterp)\s+)const\s+fn\s+([a-zA-Z_][a-zA-Z0-9_]*)\s*\(`
positional match: returns (name, length of the whole match). -/
def matchConstFnAt (s : Str) : Option (Str × Nat) :=
  let s1 := pubStep s
  let banned := [lit "spec", lit "open", lit "uninterp"]
  if banned.any (fun k =>
      match dropPat? k s1 with
      | some r => (ws1 r).isSome
      | none => false) then none
  else
    match dropPat? (lit "const") s1 with
    | none => none
    | some r =>
      match ws1 r with
      | none => none
      | some r2 =>
        match fnTail r2 with
        | some (nm, rest) => some (nm, s.length - rest.length)
        | none => none

/-- Non-overlapping scan of `const_fn_pattern` over the text. -/
def scanConst : Nat → Str → Nat → List (Str × Nat)
  | 0, _, _ => []
  | _ + 1, [], _ => []
  | fuel + 1, c :: t, pos =>
    match matchConstFnAt (c :: t) with
    | some (nm, len) =>
      (nm, pos) :: scanConst fuel ((c :: t).drop len) (pos + len)
    | none => scanConst fuel t (pos + 1)

/-- Line number reported for a match at offset `pos` of the
comment-stripped block:
`block_start_line + content_no_comments[:match.start()].count('\n') + 1`. -/
def lineOfPos (stripped : Str) (blockStartLine pos : Nat) : Nat :=
  blockStartLine + countNl (stripped.take pos) + 1

/-- The general-pattern half of `extract_functions_from_block`: all
`all_fn_pattern` matches whose captured group 1 contains none of the
Verus-specific keywords, as (name, line) pairs. -/
def generalFns (blockContent : Str) (blockStartLine : Nat) : List (Str × Nat) :=
  let c := remove_comments blockContent
  ((scanGen c.length c 0).filter
      (fun m => ! verusSpecificKws.any (fun k => containsSub k (m.2.1.getD []))))
    |>.map (fun m => (m.1, lineOfPos c blockStartLine m.2.2))

/-- The const-pattern half of `extract_functions_from_block`: all
`const_fn_pattern` matches, as (name, line) pairs. -/
def constFns (blockContent : Str) (blockStartLine : Nat) : List (Str × Nat) :=
  let c := remove_comments blockContent
  (scanConst c.length c 0).map (fun m => (m.1, lineOfPos c blockStartLine m.2))

/-- `RustFunctionFinder.extract_functions_from_block`: the general
matches followed by the const matches. -/
def extract_functions_from_block (blockContent : Str) (blockStartLine : Nat) :
    List (Str × Nat) :=
  generalFns blockContent blockStartLine ++ constFns blockContent blockStartLine

end VerusFind

namespace VerusFind

/-! ### RustFunctionFinder: verus! block extraction -/

/-- The inner string-skip loop of `find_matching_brace`: starting just
after an opening quote, advance past escaped characters until the
closing quote (or end of input); returns the index where the loop
stops. -/
def skipString (content : Str) : Nat → Nat → Nat
  | 0, i => i
  | fuel + 1, i =>
    match charAt content i with
    | none => i
    | some c =>
      if c = quoteC then i
      else if c = bslashC then skipString content fuel (i + 2)
      else skipString content fuel (i + 1)

/-- The inner block-comment loop of `find_matching_brace`: advance while
`i < len(content) - 1` and the next two characters are not `*/`; returns
the index where the loop stops. -/
def skipBlockComment (content : Str) : Nat → Nat → Nat
  | 0, i => i
  | fuel + 1, i =>
    if i < content.length - 1 then
      if charAt content i = some '*' && charAt content (i + 1) = some '/' then i
      else skipBlockComment content fuel (i + 1)
    else i

/-- The inner line-comment loop of `find_matching_brace`: advance to the
next newline (or end of input); returns the index where the loop
stops. -/
def skipLineComment (content : Str) : Nat → Nat → Nat
  | 0, i => i
  | fuel + 1, i =>
    match charAt content i with
    | none => i
    | some c => if c = nlC then i else skipLineComment content fuel (i + 1)

/-- The main loop of `find_matching_brace`, with the running brace
depth; returns the index of the brace closing the block, or `none` when
end of input is reached first. -/
def fmbAux (content : Str) : Nat → Nat → Int → Option Nat
  | 0, _, _ => none
  | fuel + 1, i, depth =>
    match charAt content i with
    | none => none
    | some c =>
      if c = lbraceC then fmbAux content fuel (i + 1) (depth + 1)
      else if c = rbraceC then
        if depth - 1 = 0 then some i else fmbAux content fuel (i + 1) (depth - 1)
      else if c = quoteC then
        fmbAux content fuel (skipString content (content.length + 1) (i + 1) + 1) depth
      else if charAt content i = some '/' && charAt content (i + 1) = some '*' then
        fmbAux content fuel (skipBlockComment content (content.length + 1) (i + 2) + 2) depth
      else if charAt content i = some '/' && charAt content (i + 1) = some '/' then
        fmbAux content fuel (skipLineComment content (content.length + 1) i + 1) depth
      else fmbAux content fuel (i + 1) depth

/-- `RustFunctionFinder.find_matching_brace`: position of the brace
matching the one at `startPos` (string literals and comments skipped as
opaque spans), or `none` (the Python `-1`) when input ends first. -/
def find_matching_brace (content : Str) (startPos : Nat) : Option Nat :=
  fmbAux content (content.length + 1) startPos 0

/-- Positional match of `\bverus!\s*{` at offset `p`: requires a word
boundary before `p`, the literal `verus!`, optional whitespace, then an
opening brace; returns the brace's offset (`match.end() - 1`). -/
def matchVerusAt (content : Str) (p : Nat) : Option Nat :=
  let boundary :=
    p = 0 || (match charAt content (p - 1) with
              | some c => ! wordC c
              | none => false)
  if boundary && leadsWith (lit "verus!") (content.drop p) then
    let r := content.drop (p + 6)
    let ws := r.takeWhile pyWs
    if charAt content (p + 6 + ws.length) = some lbraceC then
      some (p + 6 + ws.length)
    else none
  else none

/-- `self.verus_start_pattern.search(content, start)`: leftmost match of
`\bverus!\s*{` at or after `start`; returns (match start, brace offset). -/
def verusSearch (content : Str) : Nat → Nat → Option (Nat × Nat)
  | 0, _ => none
  | fuel + 1, p =>
    if p ≥ content.length then none
    else
      match matchVerusAt content p with
      | some q => some (p, q)
      | none => verusSearch content fuel (p + 1)

/-- The scanning loop of `extract_verus_blocks`: find the next `verus!`
marker, find the matching brace, record the block and continue after it;
on a malformed block (`find_matching_brace` fails) the loop `break`s,
returning what was collected so far. -/
def extractBlocksAux (content : Str) : Nat → Nat → List (Str × Nat)
  | 0, _ => []
  | fuel + 1, start =>
    match verusSearch content (content.length + 1) start with
    | none => []
    | some (p, q) =>
      match find_matching_brace content q with
      | none => []
      | some e =>
        ((content.take (e + 1)).drop p, countNl (content.take p) + 1)
          :: extractBlocksAux content fuel (e + 1)

/-- `RustFunctionFinder.extract_verus_blocks`: all verus! blocks with
their 1-based start lines. -/
def extract_verus_blocks (content : Str) : List (Str × Nat) :=
  extractBlocksAux content (content.length + 1) 0

/-- `RustFunctionFinder.analyze_file` on in-memory file content: the
per-file function catalog, concatenated over the file's blocks. -/
def analyzeFileContent (content : Str) : List (Str × Nat) :=
  (extract_verus_blocks content).flatMap
    (fun b => extract_functions_from_block b.1 b.2)

end VerusFind

namespace VerusFind

/-! ### CompilationErrorParser (find_verus_functions_syn.py): patterns -/

/-- Positional match of
`verification results::\s*(\d+)\s+verified,\s*(\d+)\s+errors?`. -/
def matchSummaryAt (s : Str) : Bool :=
  (do
    let r ← dropPat? (lit "verification results::") s
    let r := r.dropWhile pyWs
    let (_, r) ← digits1 r
    let r ← ws1 r
    let r ← dropPat? (lit "verified,") r
    let r := r.dropWhile pyWs
    let (_, r) ← digits1 r
    let r ← ws1 r
    let _ ← dropPat? (lit "error") r
    pure ()).isSome

/-- `verification_results_pattern.search`. -/
def summarySearch (l : Str) : Bool := searchB matchSummaryAt l

/-- Positional match of ``error: could not compile `([^`]+)` ``;
returns the captured crate name. -/
def matchCargoAt (s : Str) : Option Str :=
  match dropPat? (lit "error: could not compile " ++ [btC]) s with
  | none => none
  | some r =>
    let nm := r.takeWhile (fun c => c ≠ btC)
    if nm = [] then none
    else if charAt r nm.length = some btC then some nm else none

/-- `cargo_error_pattern.search`. -/
def cargoSearch (l : Str) : Option Str := searchO matchCargoAt l

/-- Positional match of `warning: (.+)`; the group is the rest of the
line, which must be nonempty. -/
def matchWarningAt (s : Str) : Option Str :=
  match dropPat? (lit "warning: ") s with
  | none => none
  | some r => if r = [] then none else some r

/-- `warning_pattern.search`. -/
def warningSearch (l : Str) : Option Str := searchO matchWarningAt l

/-- Positional match of `error(?:\[E\d+\])?: (.+)`; the optional
bracketed code is tried greedily first. -/
def matchErrorAt (s : Str) : Option Str :=
  match dropPat? (lit "error") s with
  | none => none
  | some r =>
    let tail? : Str → Option Str := fun r2 =>
      match dropPat? (lit ": ") r2 with
      | none => none
      | some rest => if rest = [] then none else some rest
    let bracket? : Option Str := do
      let r2 ← dropPat? (lit "[E") r
      let (_, r3) ← digits1 r2
      dropPat? (lit "]") r3
    match bracket? with
    | some r2 => (tail? r2).orElse (fun _ => tail? r)
    | none => tail? r

/-- `error_pattern.search` (the generic error line pattern). -/
def errorSearch (l : Str) : Option Str := searchO matchErrorAt l

/-- Positional match of `process didn't exit successfully: (.+)`. -/
def matchProcAt (s : Str) : Option Str :=
  match dropPat? (lit "process didn" ++ [aposC] ++ lit "t exit successfully: ") s with
  | none => none
  | some r => if r = [] then none else some r

/-- `process_error_pattern.search`. -/
def processSearch (l : Str) : Option Str := searchO matchProcAt l

/-- Positional match of `memory allocation of \d+ bytes failed`. -/
def matchMemoryAt (s : Str) : Bool :=
  (do
    let r ← dropPat? (lit "memory allocation of ") s
    let (_, r) ← digits1 r
    dropPat? (lit " bytes failed") r).isSome

/-- `memory_error_pattern.search`. -/
def memorySearch (l : Str) : Bool := searchB matchMemoryAt l

/-- Positional match of `Verus command completed with exit code: (\d+)`. -/
def matchVerusExitAt (s : Str) : Option Nat :=
  match dropPat? (lit "Verus command completed with exit code: ") s with
  | none => none
  | some r => (digits1 r).map (·.1)

/-- `verus_command_exit_pattern.search`. -/
def verusExitSearch (l : Str) : Option Nat := searchO matchVerusExitAt l

/-- Positional match of `\(exit status: (\d+)\)`. -/
def matchExitStatusAt (s : Str) : Option Nat := do
  let r ← dropPat? (lit "(exit status: ") s
  let (n, r2) ← digits1 r
  let _ ← dropPat? (lit ")") r2
  pure n

/-- `exit_status_pattern.search`. -/
def exitStatusSearch (l : Str) : Option Nat := searchO matchExitStatusAt l

/-- Positional match of `-->\s+([^:]+):(\d+):(\d+)`: after the arrow a
greedy whitespace run, a nonempty colon-free path (the regex backtracks
one whitespace character into the path when the gap is all whitespace),
then line and column numbers. -/
def matchLocAt (s : Str) : Option (Str × Nat × Nat) := do
  let r ← dropPat? (lit "-->") s
  let seg := r.takeWhile (fun c => c ≠ ':')
  let wsRun := seg.takeWhile pyWs
  if wsRun = [] then none
  else
    let path ←
      if wsRun.length < seg.length then some (seg.drop wsRun.length)
      else if 2 ≤ seg.length then some (seg.drop (seg.length - 1))
      else none
    let r2 := r.drop seg.length
    let r3 ← dropPat? (lit ":") r2
    let (ln, r4) ← digits1 r3
    let r5 ← dropPat? (lit ":") r4
    let (col, _) ← digits1 r5
    pure (path, ln, col)

/-- `file_location_pattern.search` (also the `-->` pattern of
`VerificationParser`). -/
def locSearch (l : Str) : Option (Str × Nat × Nat) := searchO matchLocAt l

/-- The six verification-failure line patterns, in source order; each is
a literal substring search. -/
def verifErrLits : List Str :=
  [lit "error: assertion failed",
   lit "error: postcondition not satisfied",
   lit "error: precondition not satisfied",
   lit "error: loop invariant not preserved",
   lit "error: loop invariant not satisfied on entry",
   lit "error: assertion not satisfied"]

/-- `any(pattern.search(line) for pattern in self.verification_error_patterns)`. -/
def isVerifErrLine (l : Str) : Bool := verifErrLits.any (fun p => containsSub p l)

end VerusFind

namespace VerusFind

/-! ### CompilationErrorParser: the streaming state machine -/

/-- A CompilationError / Warning record, as the dictionaries built by
`parse_compilation_output`. -/
structure DRec where
  message : Str
  file : Option Str
  line : Option Nat
  column : Option Nat
  full_message : List Str
deriving DecidableEq, Repr

/-- Decimal rendering of a natural number (Python f-string). -/
def natStr (n : Nat) : Str := (toString n).data

/-- Decimal rendering of an integer (Python f-string). -/
def intStr (n : Int) : Str := (toString n).data

/-- Fresh record with the given message, whose full text starts with the
given line. -/
def newRec (msg : Str) (l : Str) : DRec :=
  { message := msg, file := none, line := none, column := none,
    full_message := [l] }

/-- Classification of one (already stripped) line by the parser's
priority-ordered rules.  The `tail` case carries the three
state-independent booleans of the final `if`/`elif` chain: the
error-continuation condition, the warning-continuation condition, and
blankness. -/
inductive Rule where
  | summary
  | cargo (crate : Str)
  | memory
  | verusExit (n : Nat)
  | procFail (d : Str)
  | errSkip
  | errOpen (msg : Str)
  | warnOpen (msg : Str)
  | loc (path : Str) (ln col : Nat)
  | tail (c9 c10 blank : Bool)
deriving DecidableEq

/-- The error-continuation condition of the final chain:
the line starts with `|`, `^`, `=`, `Caused by:`, `(signal:`, the
(two-space indented) process-failure prefix, or contains an exit-status
parenthetical. -/
def contE (l : Str) : Bool :=
  leadsWith (lit "|") l || leadsWith (lit "^") l || leadsWith (lit "=") l ||
  leadsWith (lit "Caused by:") l || leadsWith (lit "(signal:") l ||
  leadsWith (lit "  process didn" ++ [aposC] ++ lit "t exit successfully:") l ||
  (exitStatusSearch l).isSome

/-- The warning-continuation condition: `|`, `^` or `=`. -/
def contW (l : Str) : Bool :=
  leadsWith (lit "|") l || leadsWith (lit "^") l || leadsWith (lit "=") l

/-- Classify one stripped line by the first matching rule, in the
source's priority order. -/
def ruleOf (line : Str) : Rule :=
  if summarySearch line then .summary
  else match cargoSearch line with
  | some c => .cargo c
  | none =>
  if memorySearch line then .memory
  else match verusExitSearch line with
  | some n => .verusExit n
  | none => match processSearch line with
  | some d => .procFail d
  | none => match errorSearch line with
  | some m => if isVerifErrLine line then .errSkip else .errOpen m
  | none => match warningSearch line with
  | some m => .warnOpen m
  | none => match locSearch line with
  | some pl => .loc pl.1 pl.2.1 pl.2.2
  | none => .tail (contE line) (contW line) (decide (line = []))

/-- The message suffix folded in by an error-continuation line. -/
def contMsgSuffix (l : Str) : Str :=
  if leadsWith (lit "Caused by:") l then lit " - " ++ strip l
  else if containsSub (lit "(signal:") l then lit " - " ++ strip l
  else match exitStatusSearch l with
    | some n => lit " (exit status: " ++ natStr n ++ lit ")"
    | none => []

/-- The blank-line rule: a record with at least one accumulated line is
closed (emitted) and its slot cleared. -/
def blankStep (e w : Option DRec) :
    List DRec × List DRec × Option DRec × Option DRec :=
  let eo := match e with
    | some er => if 0 < er.full_message.length then ([er], none) else ([], some er)
    | none => ([], (none : Option DRec))
  let wo := match w with
    | some wr => if 0 < wr.full_message.length then ([wr], none) else ([], some wr)
    | none => ([], (none : Option DRec))
  (eo.1, wo.1, eo.2, wo.2)

/-- Apply one classified rule to the open-record state; returns the
records emitted to the error and warning lists and the new open
records. -/
def applyRule (flag : Bool) (e w : Option DRec) (line : Str) :
    Rule → List DRec × List DRec × Option DRec × Option DRec
  | .summary => ([], [], e, w)
  | .cargo crate =>
    if flag then ([], [], e, w)
    else (e.toList, [],
      some (newRec (lit "Compilation failed for crate: " ++ crate) line), w)
  | .memory =>
    match e with
    | some er => ([], [], some { er with
        full_message := er.full_message ++ [line],
        message := er.message ++ lit " - " ++ line }, w)
    | none => ([newRec line line], [], none, w)
  | .verusExit n =>
    match e with
    | some er => ([], [], some { er with
        full_message := er.full_message ++ [line],
        message := er.message ++ lit " (exit code: " ++ natStr n ++ lit ")" }, w)
    | none => ([], [],
        some (newRec (lit "Verus command failed with exit code " ++ natStr n) line), w)
  | .procFail d =>
    match e with
    | some er => ([], [], some { er with
        full_message := er.full_message ++ [line],
        message := er.message ++ lit " - " ++ d }, w)
    | none => ([], [],
        some (newRec (lit "Process execution failed: " ++ d) line), w)
  | .errSkip => ([], [], e, w)
  | .errOpen msg => (e.toList, [], some (newRec (strip msg) line), w)
  | .warnOpen msg => ([], w.toList, e, some (newRec (strip msg) line))
  | .loc path ln col =>
    match e with
    | some er => ([], [], some { er with
        file := some path, line := some ln, column := some col,
        full_message := er.full_message ++ [line] }, w)
    | none =>
      match w with
      | some wr => ([], [], none, some { wr with
          file := some path, line := some ln, column := some col,
          full_message := wr.full_message ++ [line] })
      | none => ([], [], none, none)
  | .tail c9 c10 blank =>
    match e, c9 with
    | some er, true => ([], [], some { er with
        full_message := er.full_message ++ [line],
        message := er.message ++ contMsgSuffix line }, w)
    | _, _ =>
      if w.isSome && c10 then
        match w with
        | some wr => ([], [], e, some { wr with
            full_message := wr.full_message ++ [line] })
        | none => ([], [], e, none)
      else if blank then blankStep e w
      else ([], [], e, w)

/-- Process one raw input line: strip it, classify it, apply the rule. -/
def procLineCore (flag : Bool) (e w : Option DRec) (raw : Str) :
    List DRec × List DRec × Option DRec × Option DRec :=
  let line := strip raw
  applyRule flag e w line (ruleOf line)

/-- Full parser state: accumulated error and warning lists plus the two
open-record slots. -/
structure PState where
  errors : List DRec
  warnings : List DRec
  curE : Option DRec
  curW : Option DRec
deriving DecidableEq

/-- One step of the parsing fold. -/
def procLine (flag : Bool) (st : PState) (raw : Str) : PState :=
  let r := procLineCore flag st.curE st.curW raw
  ⟨st.errors ++ r.1, st.warnings ++ r.2.1, r.2.2.1, r.2.2.2⟩

/-- `CompilationErrorParser.parse_compilation_output` over a list of
input lines: the first pass sets the verification-results flag, the
second folds the line rules; still-open records are appended at the
end. -/
def parseLines (ls : List Str) : List DRec × List DRec :=
  let flag := ls.any (fun l => summarySearch (strip l))
  let st := ls.foldl (procLine flag) ⟨[], [], none, none⟩
  (st.errors ++ st.curE.toList, st.warnings ++ st.curW.toList)

/-- `CompilationErrorParser.parse_compilation_output` on raw text. -/
def parse_compilation_output (content : Str) : List DRec × List DRec :=
  parseLines (splitLines content)

/-- `CompilationErrorParser.has_verification_results`: the summary
pattern searched over the whole output text. -/
def has_verification_results (content : Str) : Bool := summarySearch content

end VerusFind

namespace VerusFind

/-! ### VerificationParser.parse_verification_failures -/

/-- A VerificationFailure record. -/
structure VFRec where
  error_type : Str
  file : Option Str
  line : Option Nat
  column : Option Int
  message : Str
  assertion_details : List Str
  full_error_text : Str
deriving DecidableEq, Repr

/-- The known verification-failure phrases, in source order. -/
def verifErrTypes : List Str :=
  [lit "assertion failed",
   lit "postcondition not satisfied",
   lit "precondition not satisfied",
   lit "loop invariant not preserved",
   lit "loop invariant not satisfied on entry",
   lit "assertion not satisfied"]

/-- Strip ANSI colour escape sequences
(`re.sub(r'\x1b\[[0-9;]*m', '', text)`), fuel-driven. -/
def ansiStripF : Nat → Str → Str
  | 0, s => s
  | fuel + 1, s =>
    match s with
    | [] => []
    | c :: t =>
      if c = escC then
        match t with
        | b :: t2 =>
          if b = '[' then
            let r := t2.dropWhile (fun d => d.isDigit || d = ';')
            match r with
            | m :: r2 => if m = 'm' then ansiStripF fuel r2
                         else c :: ansiStripF fuel t
            | [] => c :: ansiStripF fuel t
          else c :: ansiStripF fuel t
        | [] => [c]
      else c :: ansiStripF fuel t

/-- ANSI escape removal. -/
def ansiStrip (s : Str) : Str := ansiStripF s.length s

/-- Per-line cleaning applied to a captured window line: trailing
whitespace removed, then ANSI escapes stripped. -/
def cleanLine (s : Str) : Str := ansiStrip (rstrip s)

/-- The trigger test at line `i`: the stripped line contains one of the
failure phrases (first in list order is the reported kind), and contains
`error` case-insensitively. -/
def vfTrigger (lines : List Str) (i : Nat) : Option Str :=
  let line := strip (lines.getD i [])
  match verifErrTypes.find? (fun t => containsSub t line) with
  | some t =>
    if containsSub (lit "error") (lowerStr line) then some t else none
  | none => none

/-- Location-tracking update of the window loop: once a location has
been found it is kept; otherwise the first `-->` match on the current
raw line sets (step, file, line, column), the column parsed from the
last colon-separated field. -/
def vfFound (found : Option (Nat × Str × Nat × Option Int)) (l : Str)
    (step : Nat) : Option (Nat × Str × Nat × Option Int) :=
  match found with
  | some _ => found
  | none =>
    match locSearch l with
    | some (p, ln, _) =>
      let parts := splitOnC ':' l
      let col := if 3 ≤ parts.length then pyInt (parts.getLastD []) else none
      some (step, p, ln, col)
    | none => none

/-- The early-break test of the window loop: a location has been found
at least two steps ago, the current line is blank, and the next line
starts a new diagnostic or summary section. -/
def vfBrk (found : Option (Nat × Str × Nat × Option Int)) (l : Str)
    (step : Nat) (next : Option Str) : Bool :=
  match found with
  | some f =>
    decide (f.1 + 1 < step) && decide (strip l = []) &&
    (match next with
     | some nxt =>
       leadsWith (lit "error:") (strip nxt) ||
       leadsWith (lit "verification results") (strip nxt) ||
       leadsWith (lit "note:") (strip nxt)
     | none => false)
  | none => false

/-- Drop the step component of the tracked location. -/
def vfProj (found : Option (Nat × Str × Nat × Option Int)) :
    Option (Str × Nat × Option Int) :=
  found.map (fun f => (f.2.1, f.2.2.1, f.2.2.2))

/-- The window-capture loop: walk up to 15 lines from the trigger,
recording the first `-->` location, and stop early on `vfBrk` (checked
after the current line has been captured).  `found` carries (step at
which the location was found, file, line, column). -/
def vfGo : List Str → Nat → Nat → Option (Nat × Str × Nat × Option Int) →
    List Str × Option (Str × Nat × Option Int)
  | _, 0, _, found => ([], vfProj found)
  | [], _ + 1, _, found => ([], vfProj found)
  | l :: rest, rem + 1, step, found =>
    let found' := vfFound found l step
    if vfBrk found' l step rest.head? then ([l], vfProj found')
    else
      let r := vfGo rest rem (step + 1) found'
      (l :: r.1, r.2)

/-- The captured window starting at trigger line `i`:
`for j in range(i, min(i + 15, len(lines)))` with the early break. -/
def vfWindow (lines : List Str) (i : Nat) :
    List Str × Option (Str × Nat × Option Int) :=
  vfGo (lines.drop i) 15 0 none

/-- Build the VerificationFailure record for a trigger of kind `t` at
line `i`. -/
def mkFailure (lines : List Str) (i : Nat) (t : Str) : VFRec :=
  let w := vfWindow lines i
  let clean := w.1.map cleanLine
  let complete := strip (List.intercalate [nlC] clean)
  let details :=
    (clean.filterMap (fun x =>
      let c := strip x
      if c ≠ [] && (containsSub (lit "assert") c || containsSub (lit "|") c ||
          leadsWith (lit "-->") c) then some c else none)).take 10
  { error_type := t,
    file := (w.2.map (fun f => ansiStrip f.1)),
    line := w.2.map (fun f => f.2.1),
    column := (w.2.bind (fun f => f.2.2)),
    message := ansiStrip (strip (lines.getD i [])),
    assertion_details := details,
    full_error_text := complete }

/-- The scanning loop of `parse_verification_failures`: every line is
tested as a trigger (the index always advances by one, so overlapping
windows each produce a record). -/
def parseVFAux (lines : List Str) : Nat → Nat → List VFRec
  | 0, _ => []
  | fuel + 1, i =>
    (match vfTrigger lines i with
     | some t => [mkFailure lines i t]
     | none => []) ++ parseVFAux lines fuel (i + 1)

/-- `VerificationParser.parse_verification_failures` over input lines. -/
def parseVFLines (lines : List Str) : List VFRec :=
  parseVFAux lines lines.length 0

/-- `VerificationParser.parse_verification_failures` on raw text. -/
def parse_verification_failures (content : Str) : List VFRec :=
  parseVFLines (splitLines content)

/-! ### VerusAnalyzer.analyze_output: status and synthesized error -/

/-- The run status values produced by `analyze_output`. -/
inductive AStatus where
  | success
  | verification_failed
  | compilation_failed
deriving DecidableEq, Repr

/-- The generic CompilationError synthesized for a nonzero exit code
with no other evidence. -/
def genericExitRec (n : Int) : DRec :=
  { message := lit "Command failed with exit code " ++ intStr n,
    file := none, line := none, column := none,
    full_message := [lit "Process exited with code " ++ intStr n] }

/-- The status and compilation-error portion of
`VerusAnalyzer.analyze_output` (find_verus_functions_syn.py): parse the
diagnostics, parse the verification failures, observe the
verification-results flag, synthesize a generic error for a nonzero exit
code only when nothing else was found, and decide the status.  (The
function-catalog portion of `analyze_output` queries the external
verus_syn backend and does not influence these two outputs.) -/
def analyze_output (content : Str) (exitCode : Option Int) :
    AStatus × List DRec :=
  let errs := (parse_compilation_output content).1
  let failures := parse_verification_failures content
  let hasVR := has_verification_results content
  let hasCE := decide (errs ≠ [])
  let hasVF := decide (failures ≠ [])
  let errs2 :=
    match exitCode with
    | some n =>
      if n ≠ 0 && !hasCE && !hasVF && !hasVR then errs ++ [genericExitRec n]
      else errs
    | none => errs
  let status :=
    if hasVR then
      if hasVF then AStatus.verification_failed else AStatus.success
    else if errs2 ≠ [] then AStatus.compilation_failed
    else AStatus.success
  (status, errs2)

end VerusFind

namespace VerusFind

/-! ### VerificationParser.find_function_at_line (find_verus_functions_syn.py) -/

/-- Path normalization as `str(Path(p))` (pure POSIX): empty and `.`
components dropped, a leading root preserved (exactly two leading
slashes stay `//`), empty result rendered `.`. -/
def normPath (s : Str) : Str :=
  let parts := (splitOnC '/' s).filter (fun p => p ≠ [] && p ≠ lit ".")
  let root :=
    if leadsWith (lit "//") s && ! leadsWith (lit "///") s then lit "//"
    else if leadsWith (lit "/") s then lit "/"
    else []
  let res := root ++ List.intercalate (lit "/") parts
  if res = [] then lit "." else res

/-- `Path(p).name`: the last component (after dropping empty and `.`
components), or empty. -/
def pathName (s : Str) : Str :=
  ((splitOnC '/' s).filter (fun p => p ≠ [] && p ≠ lit ".")).getLastD []

/-- The per-candidate fuzzy file match of `find_function_at_line`, rules
in source order: exact normalized equality, suffix either way, substring
either way, equal basenames. -/
def fileMatches (filePath fileKey : Str) : Bool :=
  let pn := normPath filePath
  let kn := normPath fileKey
  pn = kn ||
  tailsWith kn pn || tailsWith pn kn ||
  containsSub pn kn || containsSub kn pn ||
  pathName filePath = pathName fileKey

/-- The key-iteration loop of `find_function_at_line`: the first indexed
file for which any of the four rules holds is selected, with its
function list. -/
def findMatchingEntry (index : List (Str × List (Str × Nat))) (filePath : Str) :
    Option (Str × List (Str × Nat)) :=
  match index with
  | [] => none
  | kv :: rest =>
    if normPath filePath = normPath kv.1 then some kv
    else if tailsWith (normPath kv.1) (normPath filePath) ||
            tailsWith (normPath filePath) (normPath kv.1) then some kv
    else if containsSub (normPath filePath) (normPath kv.1) ||
            containsSub (normPath kv.1) (normPath filePath) then some kv
    else if pathName filePath = pathName kv.1 then some kv
    else findMatchingEntry rest filePath

/-- The selection loop of `find_function_at_line`: running best
candidate (name, line), starting from `closest_line = 0`; a function at
line `fl` replaces the candidate when `fl ≤ target` and `fl >
closest_line`. -/
def selectAux (target : Nat) : List (Str × Nat) → Option Str → Nat → Option Str
  | [], best, _ => best
  | p :: rest, best, bl =>
    if p.2 ≤ target && bl < p.2 then selectAux target rest (some p.1) p.2
    else selectAux target rest best bl

/-- `VerificationParser.find_function_at_line`: fuzzy-match the file
against the index, then pick the function with the greatest definition
line not exceeding the diagnostic line. -/
def find_function_at_line (index : List (Str × List (Str × Nat)))
    (filePath : Str) (lineNumber : Nat) : Option Str :=
  match findMatchingEntry index filePath with
  | none => none
  | some kv => selectAux lineNumber kv.2 none 0

end VerusFind

namespace VerusFind

/-! ### Auxiliary predicates used by the theorems -/

/-- A well-formed open slot: any open record has accumulated at least
one line of full text (true throughout the parse, since records are
opened with one line). -/
def goodO (o : Option DRec) : Prop := ∀ r, o = some r → r.full_message ≠ []

/-- Every record reachable from the state has its full text drawn, in
order, from the stripped lines `P` processed so far. -/
def SubInv (P : List Str) (st : PState) : Prop :=
  (∀ r ∈ st.errors, r.full_message.Sublist P) ∧
  (∀ r ∈ st.warnings, r.full_message.Sublist P) ∧
  (∀ r, st.curE = some r → r.full_message.Sublist P) ∧
  (∀ r, st.curW = some r → r.full_message.Sublist P)

end VerusFind

namespace VerusFind

/-- C1: the spec requires that a function carrying any verification-specific
modifier (spec, proof, exec, open, uninterp) is never classified as
ordinary, the test being a membership check over all captured modifier
tokens.  The code's starred capture group keeps only the last repetition,
so `pub spec const fn f()` — whose captured group is `const ` — passes the
keyword test and lands in the ordinary catalog (twice, via the const
pattern as well), contradicting the scanner's own stated exclusion rule. -/
theorem c1_spec_const_fn_in_ordinary_catalog :
    extract_functions_from_block (lit "pub spec const fn f()") 0 =
      [(lit "f", 1), (lit "f", 1)] := by decide

/-- C10: `extract_functions_from_block` returns the general-pattern
matches followed by the const-pattern matches; a (name, line) pair
produced by both scans therefore occurs at least twice in the block's
result list. -/
theorem c10_plain_const_fn_listed_twice (b : Str) (startLine : Nat)
    (nm : Str) (l : Nat)
    (hc : (nm, l) ∈ constFns b startLine)
    (hg : (nm, l) ∈ generalFns b startLine) :
    extract_functions_from_block b startLine =
      generalFns b startLine ++ constFns b startLine ∧
    2 ≤ (extract_functions_from_block b startLine).count (nm, l) := by
  refine ⟨rfl, ?_⟩
  have h1 : 0 < (generalFns b startLine).count (nm, l) :=
    List.count_pos_iff.mpr hg
  have h2 : 0 < (constFns b startLine).count (nm, l) :=
    List.count_pos_iff.mpr hc
  rw [extract_functions_from_block, List.count_append]
  omega

/-- C10 witness: a block consisting of a plain const function and an
ordinary function; the const function is reported twice. -/
theorem c10_plain_const_fn_listed_twice_witness :
    (lit "a", 1) ∈ constFns (lit "const fn a()\nfn z()") 0 ∧
    2 ≤ (extract_functions_from_block (lit "const fn a()\nfn z()") 0).count
        (lit "a", 1) :=
  ⟨by decide,
   (c10_plain_const_fn_listed_twice (lit "const fn a()\nfn z()") 0 (lit "a") 1
      (by decide) (by decide)).2⟩

end VerusFind

namespace VerusFind

lemma selectAux_nil (target : Nat) (best : Option Str) (bl : Nat) :
    selectAux target [] best bl = best := rfl

lemma selectAux_cons_pos (target : Nat) (p : Str × Nat) (rest : List (Str × Nat))
    (best : Option Str) (bl : Nat) (h1 : p.2 ≤ target) (h2 : bl < p.2) :
    selectAux target (p :: rest) best bl = selectAux target rest (some p.1) p.2 := by
  simp [selectAux, h1, h2]

lemma selectAux_cons_neg (target : Nat) (p : Str × Nat) (rest : List (Str × Nat))
    (best : Option Str) (bl : Nat) (h : ¬(p.2 ≤ target ∧ bl < p.2)) :
    selectAux target (p :: rest) best bl = selectAux target rest best bl := by
  have hc : (decide (p.2 ≤ target) && decide (bl < p.2)) = false := by
    rcases Decidable.not_and_iff_or_not.mp h with h' | h' <;> simp [h']
  simp [selectAux, hc]

lemma selectAux_eq_none_iff (target : Nat) :
    ∀ (fs : List (Str × Nat)) (best : Option Str) (bl : Nat),
      selectAux target fs best bl = none ↔
        best = none ∧ ∀ p ∈ fs, ¬(p.2 ≤ target ∧ bl < p.2) := by
  intro fs
  induction fs with
  | nil => intro best bl; simp [selectAux_nil]
  | cons p rest ih =>
    intro best bl
    by_cases h : p.2 ≤ target ∧ bl < p.2
    · rw [selectAux_cons_pos target p rest best bl h.1 h.2, ih]
      constructor
      · rintro ⟨h1, -⟩; exact absurd h1 (by simp)
      · rintro ⟨-, hall⟩; exact absurd h (hall p (List.mem_cons_self p rest))
    · rw [selectAux_cons_neg target p rest best bl h, ih]
      constructor
      · rintro ⟨h1, h2⟩
        refine ⟨h1, fun q hq => ?_⟩
        rcases List.mem_cons.mp hq with hq1 | hq'
        · rw [hq1]; exact h
        · exact h2 q hq'
      · rintro ⟨h1, h2⟩
        exact ⟨h1, fun q hq => h2 q (List.mem_cons_of_mem _ hq)⟩

lemma selectAux_spec (target : Nat) :
    ∀ (fs : List (Str × Nat)) (best : Option Str) (bl : Nat),
      (∀ n, best = some n → bl ≤ target) →
      ∀ m, selectAux target fs best bl = some m →
        ∃ l, ((best = some m ∧ l = bl) ∨ (m, l) ∈ fs) ∧ l ≤ target ∧ bl ≤ l ∧
          ∀ p ∈ fs, p.2 ≤ target → p.2 ≤ l := by
  intro fs
  induction fs with
  | nil =>
    intro best bl hb m hm
    rw [selectAux_nil] at hm
    exact ⟨bl, Or.inl ⟨hm, rfl⟩, hb m hm, le_refl bl,
      fun p hp => absurd hp (List.not_mem_nil p)⟩
  | cons p rest ih =>
    intro best bl hb m hm
    by_cases h : p.2 ≤ target ∧ bl < p.2
    · rw [selectAux_cons_pos target p rest best bl h.1 h.2] at hm
      obtain ⟨l, hl1, hl2, hl3, hl4⟩ :=
        ih (some p.1) p.2 (fun n _ => h.1) m hm
      rcases hl1 with ⟨heq, hlb⟩ | hmem
      · have hpm : p = (m, p.2) := by
          have ha : p.1 = m := Option.some.inj heq
          rw [← ha]
        refine ⟨p.2, Or.inr (by rw [← hpm]; exact List.mem_cons_self p rest),
          h.1, le_of_lt h.2, fun q hq hq2 => ?_⟩
        rcases List.mem_cons.mp hq with hq1 | hq'
        · rw [hq1]
        · exact le_trans (hl4 q hq' hq2) (by rw [hlb])
      · refine ⟨l, Or.inr (List.mem_cons_of_mem _ hmem), hl2,
          le_trans (le_of_lt h.2) hl3, fun q hq hq2 => ?_⟩
        rcases List.mem_cons.mp hq with hq1 | hq'
        · rw [hq1]; exact hl3
        · exact hl4 q hq' hq2
    · rw [selectAux_cons_neg target p rest best bl h] at hm
      obtain ⟨l, hl1, hl2, hl3, hl4⟩ := ih best bl hb m hm
      refine ⟨l, ?_, hl2, hl3, fun q hq hq2 => ?_⟩
      · rcases hl1 with hb' | hmem
        · exact Or.inl hb'
        · exact Or.inr (List.mem_cons_of_mem _ hmem)
      · rcases List.mem_cons.mp hq with hq1 | hq'
        · have hqb : q.2 ≤ bl := by
            by_contra hgt
            rw [hq1] at hq2 hgt
            exact h ⟨hq2, lt_of_not_le hgt⟩
          exact le_trans hqb hl3
        · exact hl4 q hq' hq2

end VerusFind

namespace VerusFind

/-- C3: given a matched index entry whose definition lines are all
1-based (positive), the correlator returns `none` exactly when every
definition line exceeds the diagnostic line (in particular for an empty
list), and otherwise returns a function whose definition line is the
greatest one that is ≤ the diagnostic line (ties resolved among entries
at that line). -/
theorem c3_correlator_greatest_le (index : List (Str × List (Str × Nat)))
    (path : Str) (target : Nat) (kv : Str × List (Str × Nat))
    (hm : findMatchingEntry index path = some kv)
    (h1 : ∀ p ∈ kv.2, 1 ≤ p.2) :
    (find_function_at_line index path target = none ↔
      ∀ p ∈ kv.2, target < p.2) ∧
    (∀ m, find_function_at_line index path target = some m →
      ∃ l, (m, l) ∈ kv.2 ∧ l ≤ target ∧
        ∀ p ∈ kv.2, p.2 ≤ target → p.2 ≤ l) := by
  have hr : find_function_at_line index path target = selectAux target kv.2 none 0 := by
    unfold find_function_at_line
    rw [hm]
  constructor
  · rw [hr, selectAux_eq_none_iff]
    constructor
    · rintro ⟨-, hall⟩ p hp
      have := hall p hp
      have h2 := h1 p hp
      omega
    · intro hall
      refine ⟨rfl, fun p hp => ?_⟩
      have := hall p hp
      omega
  · intro m hm2
    rw [hr] at hm2
    obtain ⟨l, hl1, hl2, -, hl4⟩ :=
      selectAux_spec target kv.2 none 0 (fun n hn => by cases hn) m hm2
    rcases hl1 with ⟨hc, -⟩ | hmem
    · cases hc
    · exact ⟨l, hmem, hl2, hl4⟩

/-- C3 witness: definitions at lines 10, 50, 120; the theorem applied at
diagnostic line 5 yields the none-characterization, and direct
evaluation confirms the claim's three examples. -/
theorem c3_correlator_greatest_le_witness :
    (find_function_at_line
        [(lit "src/lib.rs", [(lit "A", 10), (lit "B", 50), (lit "C", 120)])]
        (lit "src/lib.rs") 5 = none ↔
      ∀ p ∈ [(lit "A", 10), (lit "B", 50), (lit "C", 120)], 5 < p.2) :=
  (c3_correlator_greatest_le
    [(lit "src/lib.rs", [(lit "A", 10), (lit "B", 50), (lit "C", 120)])]
    (lit "src/lib.rs") 5
    (lit "src/lib.rs", [(lit "A", 10), (lit "B", 50), (lit "C", 120)])
    (by decide) (by decide)).1

lemma fileMatches_true_of_first (path k : Str)
    (h : normPath path = normPath k) : fileMatches path k = true := by
  simp [fileMatches, h]

/-- C7 amended: the key loop selects the first indexed file satisfying
any of the four rules — index order, not rule strength, decides between
candidates. -/
theorem c7_first_key_any_rule_wins (index : List (Str × List (Str × Nat)))
    (path : Str) :
    findMatchingEntry index path =
      index.find? (fun kv => fileMatches path kv.1) := by
  induction index with
  | nil => rfl
  | cons kv rest ih =>
    simp only [findMatchingEntry]
    split_ifs with h1 h2 h3 h4
    · rw [List.find?_cons_of_pos]
      simp only [fileMatches, Bool.or_eq_true, decide_eq_true_eq]
      tauto
    · rw [List.find?_cons_of_pos]
      simp only [Bool.or_eq_true] at h2
      simp only [fileMatches, Bool.or_eq_true, decide_eq_true_eq]
      tauto
    · rw [List.find?_cons_of_pos]
      simp only [Bool.or_eq_true] at h3
      simp only [fileMatches, Bool.or_eq_true, decide_eq_true_eq]
      tauto
    · rw [List.find?_cons_of_pos]
      simp only [fileMatches, Bool.or_eq_true, decide_eq_true_eq]
      tauto
    · rw [ih, List.find?_cons_of_neg]
      simp only [Bool.or_eq_true] at h2 h3
      simp only [fileMatches, Bool.or_eq_true, decide_eq_true_eq]
      tauto

/-- C7 counterexample: the index holds `other/lib.rs` (matching the
diagnostic path `src/lib.rs` only by equal basenames) before an entry
exactly equal to the path; the correlator resolves inside
`other/lib.rs`, not the exactly-equal file, so exact equality is not
prioritized over weaker rules. -/
theorem c7_exact_match_loses_to_earlier_basename :
    find_function_at_line
        [(lit "other/lib.rs", [(lit "g", 1)]),
         (lit "src/lib.rs", [(lit "f", 10)])]
        (lit "src/lib.rs") 10 = some (lit "g") ∧
    lit "g" ≠ lit "f" := by decide

end VerusFind

namespace VerusFind

lemma leadsWith_refl : ∀ l : Str, leadsWith l l = true
  | [] => rfl
  | c :: t => by simp [leadsWith, leadsWith_refl t]

lemma containsSub_self (p : Str) : containsSub p p = true := by
  cases p with
  | nil => rfl
  | cons c t => simp [containsSub, leadsWith_refl]

lemma containsSub_append_self (a p : Str) : containsSub p (a ++ p) = true := by
  induction a with
  | nil => simpa using containsSub_self p
  | cons c t ih => simp [containsSub, ih]

/-- C6 amended: when the first verus-macro marker's opening brace has no
matching close before end of input, the block is silently discarded and
the whole scan stops there — the extractor returns no blocks at all, so
well-formed blocks occurring later in the text are not reported (and the
loop terminates rather than re-scanning). -/
theorem c6_malformed_block_stops_scan (content : Str) (p q : Nat)
    (h1 : verusSearch content (content.length + 1) 0 = some (p, q))
    (h2 : find_matching_brace content q = none) :
    extract_verus_blocks content = [] := by
  unfold extract_verus_blocks
  simp only [extractBlocksAux, h1, h2]

/-- C6 amended witness: an unterminated `verus!{` block. -/
theorem c6_malformed_block_stops_scan_witness :
    extract_verus_blocks (lit "verus!\x7b fn q(") = [] :=
  c6_malformed_block_stops_scan (lit "verus!\x7b fn q(") 0 6
    (by decide) (by decide)

/-- C6 counterexample: an unterminated block followed by a well-formed
`verus!` block.  The claim says scanning resumes after the unmatched
opening brace so the later block is still reported; the code `break`s
instead and reports nothing, although the same later block alone is
perfectly extractable. -/
theorem c6_later_wellformed_block_lost :
    extract_verus_blocks (lit "verus!\x7b\nverus!\x7b fn b() \x7b\x7d \x7d") = [] ∧
    (extract_verus_blocks (lit "verus!\x7b fn b() \x7b\x7d \x7d")).length = 1 := by
  decide

/-- C2 amended: when the diagnostic text yields no compilation-error
records, no verification-failure records and no verification-results
summary, a nonzero exit code makes `analyze_output` report
`compilation_failed` with exactly one synthesized generic
CompilationError whose message embeds the exit code. -/
theorem c2_exit_code_synthesizes_generic_error (content : Str) (n : Int)
    (h1 : (parse_compilation_output content).1 = [])
    (h2 : parse_verification_failures content = [])
    (h3 : has_verification_results content = false)
    (h4 : n ≠ 0) :
    analyze_output content (some n) =
      (AStatus.compilation_failed, [genericExitRec n]) ∧
    containsSub (intStr n) (genericExitRec n).message = true := by
  constructor
  · simp only [analyze_output, h1, h2, h3]
    simp [h4]
  · show containsSub (intStr n) (lit "Command failed with exit code " ++ intStr n) = true
    exact containsSub_append_self _ _

/-- C2 amended witness: unclassifiable output text with exit code 101
produces `compilation_failed` and one synthesized error embedding
`101`. -/
theorem c2_exit_code_synthesizes_generic_error_witness :
    analyze_output (lit "plain text") (some 101) =
      (AStatus.compilation_failed, [genericExitRec 101]) ∧
    containsSub (intStr 101) (genericExitRec 101).message = true :=
  c2_exit_code_synthesizes_generic_error (lit "plain text") 101
    (by decide) (by decide) (by decide) (by decide)

/-- C2 counterexample: a verification-failure line with no summary and no
compilation errors, with exit code 101.  The claim's conditions hold (no
summary seen, zero compilation-error records) yet the status is
`success` with no synthesized error, because the code also requires zero
verification-failure records before synthesizing. -/
theorem c2_failure_without_summary_gives_success :
    analyze_output (lit "error: assertion failed\n --> a.rs:3:5") (some 101) =
      (AStatus.success, []) := by decide

/-- C5 amended: a line containing one of the six literal verification
failure phrases prefixed by `error: ` (and matching none of the
earlier-priority rules) matches the generic error pattern but is skipped
entirely: the parser state is unchanged, so no CompilationError is
opened for it.  (The code checks the whole line for `error: <phrase>`,
not the captured message for `<phrase>`.) -/
theorem c5_verif_phrase_line_skipped (flag : Bool) (st : PState) (raw : Str)
    (h1 : summarySearch (strip raw) = false)
    (h2 : cargoSearch (strip raw) = none)
    (h3 : memorySearch (strip raw) = false)
    (h4 : verusExitSearch (strip raw) = none)
    (h5 : processSearch (strip raw) = none)
    (h6 : (errorSearch (strip raw)).isSome = true)
    (h7 : isVerifErrLine (strip raw) = true) :
    procLine flag st raw = st := by
  obtain ⟨m, hm⟩ := Option.isSome_iff_exists.mp h6
  have hrule : ruleOf (strip raw) = Rule.errSkip := by
    simp only [ruleOf, h1, h2, h3, h4, h5, hm, h7]
    simp
  cases st with
  | mk errors warnings curE curW =>
    simp [procLine, procLineCore, hrule, applyRule]

/-- C5 amended witness: the plain assertion-failure line leaves the
initial parser state unchanged. -/
theorem c5_verif_phrase_line_skipped_witness :
    procLine true ⟨[], [], none, none⟩ (lit "error: assertion failed") =
      ⟨[], [], none, none⟩ :=
  c5_verif_phrase_line_skipped true ⟨[], [], none, none⟩
    (lit "error: assertion failed") (by decide) (by decide) (by decide)
    (by decide) (by decide) (by decide) (by decide)

/-- C5 counterexample: `error[E0425]: assertion failed` is a line of the
form `error[...]: message` whose message contains the phrase
`assertion failed`, yet the parser opens a CompilationError for it — the
exclusion tests the whole line for the literal `error: assertion failed`,
which this line does not contain. -/
theorem c5_bracketed_code_phrase_opens_record :
    ((parse_compilation_output (lit "error[E0425]: assertion failed")).1.map
      (fun r => r.message)) = [lit "assertion failed"] := by decide

end VerusFind

namespace VerusFind

lemma scanGen_pos_le : ∀ (fuel : Nat) (s : Str) (pos : Nat),
    ∀ m ∈ scanGen fuel s pos, pos ≤ m.2.2 := by
  intro fuel
  induction fuel with
  | zero => intro s pos m hm; simp [scanGen] at hm
  | succ f ih =>
    intro s pos m hm
    cases s with
    | nil => simp [scanGen] at hm
    | cons c t =>
      simp only [scanGen] at hm
      cases hmt : matchGeneralFnAt (c :: t) with
      | none =>
        rw [hmt] at hm
        have := ih t (pos + 1) m hm
        omega
      | some r =>
        obtain ⟨nm, cap, len⟩ := r
        rw [hmt] at hm
        rcases List.mem_cons.mp hm with hq | hq
        · rw [hq]
        · have := ih _ (pos + len) m hq
          omega

lemma scanGen_pairwise : ∀ (fuel : Nat) (s : Str) (pos : Nat),
    (scanGen fuel s pos).Pairwise
      (fun a b : Str × Option Str × Nat => a.2.2 ≤ b.2.2) := by
  intro fuel
  induction fuel with
  | zero => intro s pos; simp [scanGen]
  | succ f ih =>
    intro s pos
    cases s with
    | nil => simp [scanGen]
    | cons c t =>
      simp only [scanGen]
      cases hmt : matchGeneralFnAt (c :: t) with
      | none => exact ih t (pos + 1)
      | some r =>
        obtain ⟨nm, cap, len⟩ := r
        rw [List.pairwise_cons]
        refine ⟨fun b hb => ?_, ih _ (pos + len)⟩
        have := scanGen_pos_le f _ (pos + len) b hb
        show pos ≤ b.2.2
        omega

lemma scanConst_pos_le : ∀ (fuel : Nat) (s : Str) (pos : Nat),
    ∀ m ∈ scanConst fuel s pos, pos ≤ m.2 := by
  intro fuel
  induction fuel with
  | zero => intro s pos m hm; simp [scanConst] at hm
  | succ f ih =>
    intro s pos m hm
    cases s with
    | nil => simp [scanConst] at hm
    | cons c t =>
      simp only [scanConst] at hm
      cases hmt : matchConstFnAt (c :: t) with
      | none =>
        rw [hmt] at hm
        have := ih t (pos + 1) m hm
        omega
      | some r =>
        obtain ⟨nm, len⟩ := r
        rw [hmt] at hm
        rcases List.mem_cons.mp hm with hq | hq
        · rw [hq]
        · have := ih _ (pos + len) m hq
          omega

lemma scanConst_pairwise : ∀ (fuel : Nat) (s : Str) (pos : Nat),
    (scanConst fuel s pos).Pairwise (fun a b : Str × Nat => a.2 ≤ b.2) := by
  intro fuel
  induction fuel with
  | zero => intro s pos; simp [scanConst]
  | succ f ih =>
    intro s pos
    cases s with
    | nil => simp [scanConst]
    | cons c t =>
      simp only [scanConst]
      cases hmt : matchConstFnAt (c :: t) with
      | none => exact ih t (pos + 1)
      | some r =>
        obtain ⟨nm, len⟩ := r
        rw [List.pairwise_cons]
        refine ⟨fun b hb => ?_, ih _ (pos + len)⟩
        have := scanConst_pos_le f _ (pos + len) b hb
        show pos ≤ b.2
        omega

lemma countNl_take_le (c : Str) {p q : Nat} (h : p ≤ q) :
    countNl (c.take p) ≤ countNl (c.take q) := by
  unfold countNl
  have h1 : c.take p = (c.take q).take p := by
    rw [List.take_take, Nat.min_eq_left h]
  rw [h1]
  exact (List.take_sublist p (c.take q)).count_le nlC

/-- C8 amended: within one verification-macro block, the records
produced by the general function pattern are in nondecreasing definition
line order, and so are the records produced by the const pattern; the
block's (and hence the file's) result list is the concatenation of these
runs and need not be globally ordered. -/
theorem c8_scan_segments_sorted (b : Str) (startLine : Nat) :
    (generalFns b startLine).Pairwise (fun x y => x.2 ≤ y.2) ∧
    (constFns b startLine).Pairwise (fun x y => x.2 ≤ y.2) := by
  constructor
  · unfold generalFns
    rw [List.pairwise_map]
    refine List.Pairwise.imp ?_ ((scanGen_pairwise _ _ _).filter _)
    intro x y hxy
    unfold lineOfPos
    have := countNl_take_le (remove_comments b) hxy
    omega
  · unfold constFns
    rw [List.pairwise_map]
    refine List.Pairwise.imp ?_ (scanConst_pairwise _ _ _)
    intro x y hxy
    unfold lineOfPos
    have := countNl_take_le (remove_comments b) hxy
    omega

/-- C8 counterexample: a file whose single block holds a plain const
function before an ordinary function.  The const match is appended after
all general matches, so the per-file catalog `[a@3, z@4, a@3]` is not in
nondecreasing line order. -/
theorem c8_catalog_not_line_ordered :
    ¬ (analyzeFileContent
        (lit "verus!\x7b\nconst fn a() \x7b\x7d\nfn z() \x7b\x7d\n\x7d")).Pairwise
        (fun x y : Str × Nat => x.2 ≤ y.2) := by decide

end VerusFind

namespace VerusFind

lemma goodO_none : goodO none := fun _ hr => nomatch hr

lemma goodO_newRec (m l : Str) : goodO (some (newRec m l)) := by
  intro r hr
  cases hr
  simp [newRec]

lemma blankStep_eq (e w : Option DRec) (he : goodO e) (hw : goodO w) :
    blankStep e w = (e.toList, w.toList, none, none) := by
  cases e with
  | none =>
    cases w with
    | none => rfl
    | some wr =>
      have h2 := List.length_pos.mpr (hw wr rfl)
      simp [blankStep, h2]
  | some er =>
    have h1 := List.length_pos.mpr (he er rfl)
    cases w with
    | none => simp [blankStep, h1]
    | some wr =>
      have h2 := List.length_pos.mpr (hw wr rfl)
      simp [blankStep, h1, h2]

lemma applyRule_goodO (flag : Bool) (e w : Option DRec) (line : Str)
    (rule : Rule) (he : goodO e) (hw : goodO w) :
    goodO (applyRule flag e w line rule).2.2.1 ∧
    goodO (applyRule flag e w line rule).2.2.2 := by
  cases rule with
  | summary => exact ⟨he, hw⟩
  | errSkip => exact ⟨he, hw⟩
  | cargo crate =>
    by_cases hf : flag
    · simp only [applyRule, if_pos hf]
      exact ⟨he, hw⟩
    · simp only [applyRule, if_neg hf]
      exact ⟨goodO_newRec _ _, hw⟩
  | memory =>
    cases e with
    | none => exact ⟨goodO_none, hw⟩
    | some er =>
      refine ⟨fun r hr => ?_, hw⟩
      cases hr
      simp
  | verusExit n =>
    cases e with
    | none => exact ⟨goodO_newRec _ _, hw⟩
    | some er =>
      refine ⟨fun r hr => ?_, hw⟩
      cases hr
      simp
  | procFail d =>
    cases e with
    | none => exact ⟨goodO_newRec _ _, hw⟩
    | some er =>
      refine ⟨fun r hr => ?_, hw⟩
      cases hr
      simp
  | errOpen msg => exact ⟨goodO_newRec _ _, hw⟩
  | warnOpen msg => exact ⟨he, goodO_newRec _ _⟩
  | loc path ln col =>
    cases e with
    | some er =>
      refine ⟨fun r hr => ?_, hw⟩
      cases hr
      simp
    | none =>
      cases w with
      | some wr =>
        refine ⟨goodO_none, fun r hr => ?_⟩
        cases hr
        simp
      | none => exact ⟨goodO_none, goodO_none⟩
  | tail c9 c10 blank =>
    cases e <;> cases c9 <;> cases w <;> cases c10 <;> cases blank <;>
      simp only [applyRule, Option.isSome_some, Option.isSome_none,
        Bool.true_and, Bool.false_and, Bool.and_self, Bool.false_eq_true,
        if_true, if_false, ite_true, ite_false] <;>
      first
        | exact ⟨goodO_none, goodO_none⟩
        | (rw [blankStep_eq _ _ he hw]; exact ⟨goodO_none, goodO_none⟩)
        | exact ⟨he, hw⟩
        | (refine ⟨he, fun r hr => ?_⟩; cases hr; simp)
        | (refine ⟨fun r hr => ?_, hw⟩; cases hr; simp)

end VerusFind

namespace VerusFind

lemma procLine_mk (flag : Bool) (E W : List DRec) (e w : Option DRec) (raw : Str) :
    procLine flag ⟨E, W, e, w⟩ raw =
      ⟨E ++ (procLineCore flag e w raw).1, W ++ (procLineCore flag e w raw).2.1,
       (procLineCore flag e w raw).2.2.1, (procLineCore flag e w raw).2.2.2⟩ := rfl

lemma procLineCore_nil (flag : Bool) (e w : Option DRec)
    (he : goodO e) (hw : goodO w) :
    procLineCore flag e w [] = (e.toList, w.toList, none, none) := by
  have h0 : ruleOf (strip ([] : Str)) = Rule.tail false false true := by decide
  show applyRule flag e w (strip ([] : Str)) (ruleOf (strip ([] : Str))) = _
  rw [h0]
  cases e <;> cases w <;> exact blankStep_eq _ _ he hw

lemma foldl_goodO (flag : Bool) : ∀ (ls : List Str) (st : PState),
    goodO st.curE → goodO st.curW →
    goodO (ls.foldl (procLine flag) st).curE ∧
    goodO (ls.foldl (procLine flag) st).curW := by
  intro ls
  induction ls with
  | nil => intro st he hw; exact ⟨he, hw⟩
  | cons l t ih =>
    intro st he hw
    rw [List.foldl_cons]
    have h := applyRule_goodO flag st.curE st.curW (strip l) (ruleOf (strip l)) he hw
    exact ih _ h.1 h.2

lemma procLine_nil_flush (flag : Bool) (st : PState)
    (he : goodO st.curE) (hw : goodO st.curW) :
    procLine flag st [] =
      ⟨st.errors ++ st.curE.toList, st.warnings ++ st.curW.toList, none, none⟩ := by
  cases st with
  | mk E W e w =>
    rw [procLine_mk, procLineCore_nil flag e w he hw]

lemma foldl_procLine_shift (flag : Bool) :
    ∀ (ls : List Str) (E W : List DRec) (e w : Option DRec),
      ls.foldl (procLine flag) ⟨E, W, e, w⟩ =
        ⟨E ++ (ls.foldl (procLine flag) ⟨[], [], e, w⟩).errors,
         W ++ (ls.foldl (procLine flag) ⟨[], [], e, w⟩).warnings,
         (ls.foldl (procLine flag) ⟨[], [], e, w⟩).curE,
         (ls.foldl (procLine flag) ⟨[], [], e, w⟩).curW⟩ := by
  intro ls
  induction ls with
  | nil => intro E W e w; simp
  | cons l t ih =>
    intro E W e w
    rw [List.foldl_cons, List.foldl_cons, procLine_mk, procLine_mk]
    rw [ih (E ++ (procLineCore flag e w l).1) (W ++ (procLineCore flag e w l).2.1)
        (procLineCore flag e w l).2.2.1 (procLineCore flag e w l).2.2.2]
    rw [ih ([] ++ (procLineCore flag e w l).1) ([] ++ (procLineCore flag e w l).2.1)
        (procLineCore flag e w l).2.2.1 (procLineCore flag e w l).2.2.2]
    simp [List.append_assoc]

/-- C4 amended: provided neither stream contains a verification-results
summary line, parsing the concatenation of two line streams separated by
a blank line yields exactly the concatenation of the error and warning
record lists obtained by parsing each stream separately.  (With a
summary line anywhere, the whole-stream first pass flips the suppression
flag for crate compile-failure lines and compositionality fails.) -/
theorem c4_concat_parse_compositional (lsA lsB : List Str)
    (hA : lsA.any (fun l => summarySearch (strip l)) = false)
    (hB : lsB.any (fun l => summarySearch (strip l)) = false) :
    parseLines (lsA ++ [] :: lsB) =
      ((parseLines lsA).1 ++ (parseLines lsB).1,
       (parseLines lsA).2 ++ (parseLines lsB).2) := by
  have hnil : summarySearch (strip ([] : Str)) = false := by decide
  have hflag : (lsA ++ [] :: lsB).any (fun l => summarySearch (strip l)) = false := by
    rw [List.any_append]
    simp [hA, hB, hnil]
  simp only [parseLines]
  rw [hflag, hA, hB]
  rw [List.foldl_append, List.foldl_cons]
  have hgood := foldl_goodO false lsA ⟨[], [], none, none⟩ goodO_none goodO_none
  rw [procLine_nil_flush false _ hgood.1 hgood.2]
  rw [foldl_procLine_shift false lsB _ _ none none]
  simp [List.append_assoc]

/-- C4 amended witness: one error line and one warning line, neither a
summary, concatenated with a blank separator. -/
theorem c4_concat_parse_compositional_witness :
    parseLines ([lit "error: one"] ++ [] :: [lit "warning: w"]) =
      ((parseLines [lit "error: one"]).1 ++ (parseLines [lit "warning: w"]).1,
       (parseLines [lit "error: one"]).2 ++ (parseLines [lit "warning: w"]).2) :=
  c4_concat_parse_compositional [lit "error: one"] [lit "warning: w"]
    (by decide) (by decide)

/-- C4 counterexample: a crate compile-failure stream concatenated (with
a blank separator) with a stream containing a verification-results
summary.  Parsed separately the first stream yields one error record;
parsed together the summary flag suppresses the crate line, so the
concatenation parses to no errors at all. -/
theorem c4_concat_parse_differs :
    (parseLines ([lit "error: could not compile `foo`"] ++ [] ::
        [lit "verification results:: 1 verified, 0 errors"])).1 ≠
      (parseLines [lit "error: could not compile `foo`"]).1 ++
        (parseLines [lit "verification results:: 1 verified, 0 errors"]).1 := by
  decide

end VerusFind

namespace VerusFind

lemma blankStep_err_src (e w : Option DRec) :
    ∀ x ∈ (blankStep e w).1, e = some x := by
  cases e <;> cases w <;> simp [blankStep] <;> split_ifs <;> simp

lemma blankStep_warn_src (e w : Option DRec) :
    ∀ x ∈ (blankStep e w).2.1, w = some x := by
  cases e <;> cases w <;> simp [blankStep] <;> split_ifs <;> simp

lemma blankStep_curE_src (e w : Option DRec) :
    ∀ x, (blankStep e w).2.2.1 = some x → e = some x := by
  cases e <;> cases w <;> simp [blankStep] <;> split_ifs <;> simp

lemma blankStep_curW_src (e w : Option DRec) :
    ∀ x, (blankStep e w).2.2.2 = some x → w = some x := by
  cases e <;> cases w <;> simp [blankStep] <;> split_ifs <;> simp

lemma applyRule_sub (flag : Bool) (e w : Option DRec) (line : Str)
    (rule : Rule) (P : List Str)
    (hE : ∀ r, e = some r → r.full_message.Sublist P)
    (hW : ∀ r, w = some r → r.full_message.Sublist P) :
    (∀ x ∈ (applyRule flag e w line rule).1,
        x.full_message.Sublist (P ++ [line])) ∧
    (∀ x ∈ (applyRule flag e w line rule).2.1,
        x.full_message.Sublist (P ++ [line])) ∧
    (∀ x, (applyRule flag e w line rule).2.2.1 = some x →
        x.full_message.Sublist (P ++ [line])) ∧
    (∀ x, (applyRule flag e w line rule).2.2.2 = some x →
        x.full_message.Sublist (P ++ [line])) := by
  have hkeep : ∀ {fm : List Str}, fm.Sublist P → fm.Sublist (P ++ [line]) :=
    fun h => h.trans (List.sublist_append_left P [line])
  have hnew : [line].Sublist (P ++ [line]) := List.sublist_append_right P [line]
  have happ : ∀ {fm : List Str}, fm.Sublist P →
      (fm ++ [line]).Sublist (P ++ [line]) :=
    fun h => h.append (List.Sublist.refl [line])
  have hE' : ∀ x ∈ e.toList, x.full_message.Sublist (P ++ [line]) := by
    intro x hx
    cases e with
    | none => simp at hx
    | some er =>
      rw [Option.toList_some, List.mem_singleton] at hx
      exact hkeep (hE x (by rw [hx]))
  have hW' : ∀ x ∈ w.toList, x.full_message.Sublist (P ++ [line]) := by
    intro x hx
    cases w with
    | none => simp at hx
    | some wr =>
      rw [Option.toList_some, List.mem_singleton] at hx
      exact hkeep (hW x (by rw [hx]))
  cases rule with
  | summary =>
    simp only [applyRule]
    exact ⟨by simp, by simp, fun x hx => hkeep (hE x hx),
      fun x hx => hkeep (hW x hx)⟩
  | errSkip =>
    simp only [applyRule]
    exact ⟨by simp, by simp, fun x hx => hkeep (hE x hx),
      fun x hx => hkeep (hW x hx)⟩
  | cargo crate =>
    by_cases hf : flag
    · simp only [applyRule, if_pos hf]
      exact ⟨by simp, by simp, fun x hx => hkeep (hE x hx),
        fun x hx => hkeep (hW x hx)⟩
    · simp only [applyRule, if_neg hf]
      refine ⟨hE', by simp, fun x hx => ?_, fun x hx => hkeep (hW x hx)⟩
      cases hx
      exact hnew
  | memory =>
    cases e with
    | none =>
      simp only [applyRule]
      refine ⟨fun x hx => ?_, by simp, by simp, fun x hx => hkeep (hW x hx)⟩
      rw [List.mem_singleton] at hx
      rw [hx]
      exact hnew
    | some er =>
      simp only [applyRule]
      refine ⟨by simp, by simp, fun x hx => ?_, fun x hx => hkeep (hW x hx)⟩
      cases hx
      exact happ (hE er rfl)
  | verusExit n =>
    cases e with
    | none =>
      simp only [applyRule]
      refine ⟨by simp, by simp, fun x hx => ?_, fun x hx => hkeep (hW x hx)⟩
      cases hx
      exact hnew
    | some er =>
      simp only [applyRule]
      refine ⟨by simp, by simp, fun x hx => ?_, fun x hx => hkeep (hW x hx)⟩
      cases hx
      exact happ (hE er rfl)
  | procFail d =>
    cases e with
    | none =>
      simp only [applyRule]
      refine ⟨by simp, by simp, fun x hx => ?_, fun x hx => hkeep (hW x hx)⟩
      cases hx
      exact hnew
    | some er =>
      simp only [applyRule]
      refine ⟨by simp, by simp, fun x hx => ?_, fun x hx => hkeep (hW x hx)⟩
      cases hx
      exact happ (hE er rfl)
  | errOpen msg =>
    simp only [applyRule]
    refine ⟨hE', by simp, fun x hx => ?_, fun x hx => hkeep (hW x hx)⟩
    cases hx
    exact hnew
  | warnOpen msg =>
    simp only [applyRule]
    refine ⟨by simp, hW', fun x hx => hkeep (hE x hx), fun x hx => ?_⟩
    cases hx
    exact hnew
  | loc path ln col =>
    cases e with
    | some er =>
      simp only [applyRule]
      refine ⟨by simp, by simp, fun x hx => ?_, fun x hx => hkeep (hW x hx)⟩
      cases hx
      exact happ (hE er rfl)
    | none =>
      cases w with
      | some wr =>
        simp only [applyRule]
        refine ⟨by simp, by simp, by simp, fun x hx => ?_⟩
        cases hx
        exact happ (hW wr rfl)
      | none =>
        simp only [applyRule]
        exact ⟨by simp, by simp, by simp, by simp⟩
  | tail c9 c10 blank =>
    have second : ∀ (e' : Option DRec),
        (∀ r, e' = some r → r.full_message.Sublist P) →
        ∀ hc10 hblank : Bool,
        (∀ x ∈ (applyRule flag e' w line (Rule.tail false hc10 hblank)).1,
            x.full_message.Sublist (P ++ [line])) ∧
        (∀ x ∈ (applyRule flag e' w line (Rule.tail false hc10 hblank)).2.1,
            x.full_message.Sublist (P ++ [line])) ∧
        (∀ x, (applyRule flag e' w line (Rule.tail false hc10 hblank)).2.2.1 = some x →
            x.full_message.Sublist (P ++ [line])) ∧
        (∀ x, (applyRule flag e' w line (Rule.tail false hc10 hblank)).2.2.2 = some x →
            x.full_message.Sublist (P ++ [line])) := by
      intro e' hE2 hc10 hblank
      cases e' <;> cases w <;> cases hc10 <;> cases hblank <;>
        simp only [applyRule, Option.isSome_some, Option.isSome_none,
          Bool.true_and, Bool.false_and, Bool.and_false, Bool.and_true,
          Bool.false_eq_true, if_true, if_false, ite_true, ite_false] <;>
        refine ⟨fun x hx => ?_, fun x hx => ?_, fun x hx => ?_, fun x hx => ?_⟩ <;>
        first
          | (exact hkeep (hE2 x hx))
          | (exact hkeep (hW x hx))
          | (cases hx; exact happ (hW _ rfl))
          | (exact hkeep (hE2 x (blankStep_curE_src _ _ x hx)))
          | (exact hkeep (hW x (blankStep_curW_src _ _ x hx)))
          | (exact hkeep (hE2 x (blankStep_err_src _ _ x hx)))
          | (exact hkeep (hW x (blankStep_warn_src _ _ x hx)))
          | simp at hx
    cases c9 with
    | false => exact second e hE c10 blank
    | true =>
      cases e with
      | some er =>
        simp only [applyRule]
        refine ⟨by simp, by simp, fun x hx => ?_, fun x hx => hkeep (hW x hx)⟩
        cases hx
        exact happ (hE er rfl)
      | none => exact second none (by simp) c10 blank

end VerusFind

namespace VerusFind

lemma procLine_subinv (flag : Bool) (P : List Str) (st : PState) (raw : Str)
    (h : SubInv P st) : SubInv (P ++ [strip raw]) (procLine flag st raw) := by
  obtain ⟨h1, h2, h3, h4⟩ := h
  cases st with
  | mk E W e w =>
    have core := applyRule_sub flag e w (strip raw) (ruleOf (strip raw)) P h3 h4
    rw [procLine_mk]
    refine ⟨?_, ?_, core.2.2.1, core.2.2.2⟩
    · intro x hx
      rcases List.mem_append.mp hx with hx | hx
      · exact (h1 x hx).trans (List.sublist_append_left _ _)
      · exact core.1 x hx
    · intro x hx
      rcases List.mem_append.mp hx with hx | hx
      · exact (h2 x hx).trans (List.sublist_append_left _ _)
      · exact core.2.1 x hx

lemma foldl_subinv (flag : Bool) : ∀ (ls : List Str) (P : List Str) (st : PState),
    SubInv P st → SubInv (P ++ ls.map strip) (ls.foldl (procLine flag) st) := by
  intro ls
  induction ls with
  | nil => intro P st h; simpa using h
  | cons l t ih =>
    intro P st h
    rw [List.foldl_cons, List.map_cons]
    have step := procLine_subinv flag P st l h
    have := ih (P ++ [strip l]) (procLine flag st l) step
    simpa [List.append_assoc] using this

lemma vfGo_prefix : ∀ (ls : List Str) (rem step : Nat)
    (found : Option (Nat × Str × Nat × Option Int)),
    (vfGo ls rem step found).1 <+: ls := by
  intro ls
  induction ls with
  | nil =>
    intro rem step found
    cases rem <;> simp [vfGo]
  | cons l rest ih =>
    intro rem step found
    cases rem with
    | zero => simp [vfGo]
    | succ r =>
      simp only [vfGo]
      by_cases hb : vfBrk (vfFound found l step) l step rest.head? = true
      · rw [if_pos hb]
        exact ⟨rest, rfl⟩
      · rw [if_neg hb]
        obtain ⟨t, ht⟩ := ih r (step + 1) (vfFound found l step)
        exact ⟨t, by rw [List.cons_append, ht]⟩

lemma parseVFAux_mem (lines : List Str) : ∀ (fuel i : Nat) (f : VFRec),
    f ∈ parseVFAux lines fuel i →
    ∃ j t, vfTrigger lines j = some t ∧ f = mkFailure lines j t := by
  intro fuel
  induction fuel with
  | zero => intro i f hf; simp [parseVFAux] at hf
  | succ fu ih =>
    intro i f hf
    simp only [parseVFAux] at hf
    rcases List.mem_append.mp hf with hf | hf
    · cases ht : vfTrigger lines i with
      | none => rw [ht] at hf; simp at hf
      | some t =>
        rw [ht] at hf
        have := List.mem_singleton.mp hf
        exact ⟨i, t, ht, this⟩
    · exact ih (i + 1) f hf

/-- C9 amended: every CompilationError and Warning record's `full_message`
reproduces its matched input lines in order with surrounding whitespace
stripped — it is a sublist of the stripped input lines, not of the raw
lines; every VerificationFailure's `full_error_text` reproduces a
contiguous window of the raw input lines modulo per-line
trailing-whitespace removal, ANSI-escape stripping, and trimming of the
joined text. -/
theorem c9_full_text_reproduction (ls : List Str) :
    (∀ r ∈ (parseLines ls).1, r.full_message.Sublist (ls.map strip)) ∧
    (∀ r ∈ (parseLines ls).2, r.full_message.Sublist (ls.map strip)) ∧
    (∀ f ∈ parseVFLines ls, ∃ i k, f.full_error_text =
        strip (List.intercalate [nlC] (((ls.drop i).take k).map cleanLine))) := by
  have hinit : SubInv [] (⟨[], [], none, none⟩ : PState) := by
    refine ⟨?_, ?_, ?_, ?_⟩ <;> intro r hr <;> simp at hr
  have hinv : SubInv ([] ++ ls.map strip)
      (ls.foldl (procLine (ls.any (fun l => summarySearch (strip l))))
        ⟨[], [], none, none⟩) :=
    foldl_subinv _ ls [] ⟨[], [], none, none⟩ hinit
  rw [List.nil_append] at hinv
  obtain ⟨h1, h2, h3, h4⟩ := hinv
  refine ⟨?_, ?_, ?_⟩
  · intro r hr
    rcases List.mem_append.mp hr with hr | hr
    · exact h1 r hr
    · cases hc : (ls.foldl (procLine (ls.any (fun l => summarySearch (strip l))))
          ⟨[], [], none, none⟩).curE with
      | none => rw [hc] at hr; simp at hr
      | some er =>
        rw [hc, Option.toList_some, List.mem_singleton] at hr
        rw [hr]
        exact h3 er hc
  · intro r hr
    rcases List.mem_append.mp hr with hr | hr
    · exact h2 r hr
    · cases hc : (ls.foldl (procLine (ls.any (fun l => summarySearch (strip l))))
          ⟨[], [], none, none⟩).curW with
      | none => rw [hc] at hr; simp at hr
      | some wr =>
        rw [hc, Option.toList_some, List.mem_singleton] at hr
        rw [hr]
        exact h4 wr hc
  · intro f hf
    obtain ⟨j, t, htr, hfe⟩ := parseVFAux_mem ls _ 0 f hf
    refine ⟨j, (vfWindow ls j).1.length, ?_⟩
    have hpre : (vfWindow ls j).1 <+: ls.drop j := vfGo_prefix (ls.drop j) 15 0 none
    have htake : (ls.drop j).take (vfWindow ls j).1.length = (vfWindow ls j).1 :=
      (List.prefix_iff_eq_take.mp hpre).symm
    rw [htake, hfe]
    rfl

/-- C9 amended witness: a two-line error diagnostic; the record's
full text is the stripped form of its matched lines. -/
theorem c9_full_text_reproduction_witness :
    ({ message := lit "x", file := some (lit "a.rs"), line := some 12,
       column := some 5,
       full_message := [lit "error: x", lit "--> a.rs:12:5"] } : DRec) ∈
      (parseLines [lit "error: x", lit "   --> a.rs:12:5"]).1 ∧
    ([lit "error: x", lit "--> a.rs:12:5"]).Sublist
      ([lit "error: x", lit "   --> a.rs:12:5"].map strip) :=
  ⟨by decide,
   (c9_full_text_reproduction [lit "error: x", lit "   --> a.rs:12:5"]).1
     { message := lit "x", file := some (lit "a.rs"), line := some 12,
       column := some 5,
       full_message := [lit "error: x", lit "--> a.rs:12:5"] } (by decide)⟩

/-- C9 counterexample: the record produced for
`error: x\n   --> a.rs:12:5` stores its location line stripped of the
leading indentation, so concatenating the `full_message` lines does not
reproduce the original matched input lines verbatim. -/
theorem c9_full_message_not_verbatim :
    ((parse_compilation_output (lit "error: x\n   --> a.rs:12:5")).1.map
        (fun r => r.full_message)) = [[lit "error: x", lit "--> a.rs:12:5"]] ∧
    [lit "error: x", lit "--> a.rs:12:5"] ≠
      splitLines (lit "error: x\n   --> a.rs:12:5") := by decide

end VerusFind
